import Mathlib

/-!
Verification of the latin filesystem convenience library (src/src/file.rs and
src/src/directory.rs) against its specification.

The library is a thin wrapper over the platform filesystem, so the embedding
models the filesystem explicitly as a tree of nodes (regular files with byte
content, directories with named children, and symbolic links whose resolution
outcome is abstracted).  Every library function from the source is translated
into a Lean function over this tree; the underlying std::fs primitives
(OpenOptions open modes, read_dir, metadata queries, BufRead lines splitting,
UTF-8 validation and lossy decoding) are modelled with their documented
standard semantics, since the repository delegates to them directly.

Bytes are Nat values (meaningful range 0..255); Rust String values are
modelled as their UTF-8 byte lists.  Paths are lists of component names.
-/

namespace Latin

/-- A filesystem path, as a list of component names from the root. -/
abbrev FsPath := List String

/-- Abstracted resolution outcome of a symbolic link.  The claims only need
to know whether a link resolves to a regular file, to a directory, or is
dangling; link-target contents are outside the model. -/
inductive SymTarget where
  | toFile
  | toDir
  | broken
deriving DecidableEq, Repr

/-- A filesystem node: a regular file with byte content, a directory with an
ordered list of named children (enumeration order of read_dir), or a
symbolic link. -/
inductive Node where
  | file (content : List Nat)
  | dir (entries : List (String × Node))
  | symlink (target : SymTarget)
deriving Repr

/-- Error kinds of std::io::ErrorKind relevant to this library.  In the Rust
toolchain this crate targets, ENOTDIR and EISDIR surface as Other. -/
inductive ErrorKind where
  | notFound
  | permissionDenied
  | invalidData
  | other
deriving DecidableEq, Repr

/-- A std::io::Error value: its kind, plus whether it wraps a FromUtf8Error
payload (read_string_utf8 builds such an error with ErrorKind::Other; errors
coming from the filesystem itself never carry that payload). -/
structure IoError where
  kind : ErrorKind
  utf8Cause : Bool
deriving DecidableEq, Repr

/-- Finds the child named name in a directory entry list (first match). -/
def findEntry (es : List (String × Node)) (name : String) : Option Node :=
  match es with
  | [] => none
  | (k, v) :: rest => if k = name then some v else findEntry rest name

/-- Replaces the child named name in a directory entry list, keeping the
enumeration order. -/
def setEntry (es : List (String × Node)) (name : String) (x : Node) :
    List (String × Node) :=
  match es with
  | [] => []
  | (k, v) :: rest =>
      if k = name then (k, x) :: rest else (k, v) :: setEntry rest name x

/-- Resolves a path to the node it names, without following symbolic links
(a path whose proper prefix resolves to a non-directory names nothing). -/
def Node.lookup : Node → FsPath → Option Node
  | n, [] => some n
  | Node.dir es, name :: rest =>
      match findEntry es name with
      | some c => Node.lookup c rest
      | none => none
  | _, _ :: _ => none

/-- The byte content of the regular file a path names, if any. -/
def contentAt (n : Node) (p : FsPath) : Option (List Nat) :=
  match Node.lookup n p with
  | some (Node.file c) => some c
  | _ => none

/-- Models opening a path with OpenOptions write(true).create(true) and
writing it in full: f receives the previous content when the path names an
existing regular file (none when the entry is created) and returns the new
content.  Overwrite mode passes f ignoring the old content; append mode
passes f extending it.  Errors: a missing intermediate component is ENOENT
(notFound); a non-directory intermediate is ENOTDIR and an existing
directory at the final component is EISDIR (both Other in this toolchain). -/
def Node.openWrite : Node → FsPath → (Option (List Nat) → List Nat) →
    Except IoError Node
  | _, [], _ => Except.error ⟨ErrorKind.other, false⟩
  | Node.file _, _ :: _, _ => Except.error ⟨ErrorKind.other, false⟩
  | Node.symlink _, _ :: _, _ => Except.error ⟨ErrorKind.other, false⟩
  | Node.dir es, [name], f =>
      match findEntry es name with
      | none =>
          Except.ok (Node.dir (es ++ [(name, Node.file (f none))]))
      | some (Node.file old) =>
          Except.ok (Node.dir (setEntry es name (Node.file (f (some old)))))
      | some (Node.dir _) => Except.error ⟨ErrorKind.other, false⟩
      | some (Node.symlink _) => Except.error ⟨ErrorKind.other, false⟩
  | Node.dir es, name :: r :: rs, f =>
      match findEntry es name with
      | none => Except.error ⟨ErrorKind.notFound, false⟩
      | some child =>
          match Node.openWrite child (r :: rs) f with
          | Except.ok c => Except.ok (Node.dir (setEntry es name c))
          | Except.error e => Except.error e

/-- latin::file::write (file.rs lines 26-29): opens with
write(true).create(true).truncate(true) and writes all of contents, so the
new content is exactly contents regardless of what was there. -/
def write (fs : Node) (p : FsPath) (contents : List Nat) :
    Except IoError Node :=
  Node.openWrite fs p (fun _ => contents)

/-- latin::file::append (file.rs lines 61-64): opens with
write(true).create(true).append(true) and writes all of contents after the
existing content (empty when the file is created). -/
def append (fs : Node) (p : FsPath) (contents : List Nat) :
    Except IoError Node :=
  Node.openWrite fs p (fun old => old.getD [] ++ contents)

/-- latin::file::read (file.rs lines 96-101): opens with read(true) and
reads the whole content.  A missing path (or a dangling symlink) is ENOENT;
reading a directory fails; reading through a symlink that resolves to a file
is outside the model (link-target contents are abstracted). -/
def read (fs : Node) (p : FsPath) : Except IoError (List Nat) :=
  match Node.lookup fs p with
  | some (Node.file c) => Except.ok c
  | some (Node.dir _) => Except.error ⟨ErrorKind.other, false⟩
  | some (Node.symlink SymTarget.toFile) => Except.error ⟨ErrorKind.other, false⟩
  | some (Node.symlink SymTarget.toDir) => Except.error ⟨ErrorKind.other, false⟩
  | some (Node.symlink SymTarget.broken) => Except.error ⟨ErrorKind.notFound, false⟩
  | none => Except.error ⟨ErrorKind.notFound, false⟩

/-- True when the byte is a UTF-8 continuation byte (0x80..0xBF). -/
def isCont (b : Nat) : Bool :=
  decide (128 ≤ b) && decide (b ≤ 191)

/-- Strict UTF-8 validity of a byte sequence, per the standard table also
used by core::str::from_utf8 (no overlongs, no surrogates, max U+10FFFF). -/
def utf8Valid : List Nat → Bool
  | [] => true
  | b :: rest =>
      if b < 128 then utf8Valid rest
      else if 194 ≤ b && b ≤ 223 then
        match rest with
        | c :: r => isCont c && utf8Valid r
        | [] => false
      else if 224 ≤ b && b ≤ 239 then
        match rest with
        | c :: r =>
            (if b = 224 then decide (160 ≤ c) && decide (c ≤ 191)
             else if b = 237 then decide (128 ≤ c) && decide (c ≤ 159)
             else isCont c) &&
            (match r with
             | d :: r2 => isCont d && utf8Valid r2
             | [] => false)
        | [] => false
      else if 240 ≤ b && b ≤ 244 then
        match rest with
        | c :: r =>
            (if b = 240 then decide (144 ≤ c) && decide (c ≤ 191)
             else if b = 244 then decide (128 ≤ c) && decide (c ≤ 143)
             else isCont c) &&
            (match r with
             | d :: r2 =>
                 isCont d &&
                 (match r2 with
                  | e :: r3 => isCont e && utf8Valid r3
                  | [] => false)
             | [] => false)
        | [] => false
      else false

/-- UTF-8 encoding of U+FFFD, the replacement character. -/
def replacementChar : List Nat := [239, 191, 189]

/-- Whether the second byte of a 3-byte sequence led by b is acceptable. -/
def validSecond3 (b c : Nat) : Bool :=
  if b = 224 then decide (160 ≤ c) && decide (c ≤ 191)
  else if b = 237 then decide (128 ≤ c) && decide (c ≤ 159)
  else isCont c

/-- Whether the second byte of a 4-byte sequence led by b is acceptable. -/
def validSecond4 (b c : Nat) : Bool :=
  if b = 240 then decide (144 ≤ c) && decide (c ≤ 191)
  else if b = 244 then decide (128 ≤ c) && decide (c ≤ 143)
  else isCont c

/-- Models String::from_utf8_lossy: copies valid sequences and replaces each
maximal-subpart error unit with U+FFFD (one replacement per invalid unit,
resynchronising after the last acceptable byte of a broken sequence). -/
def lossyDecode : List Nat → List Nat
  | [] => []
  | b :: rest =>
      if b < 128 then b :: lossyDecode rest
      else if 194 ≤ b && b ≤ 223 then
        match rest with
        | c :: r =>
            if isCont c then b :: c :: lossyDecode r
            else replacementChar ++ lossyDecode (c :: r)
        | [] => replacementChar
      else if 224 ≤ b && b ≤ 239 then
        match rest with
        | c :: r =>
            if validSecond3 b c then
              match r with
              | d :: r2 =>
                  if isCont d then b :: c :: d :: lossyDecode r2
                  else replacementChar ++ lossyDecode (d :: r2)
              | [] => replacementChar
            else replacementChar ++ lossyDecode (c :: r)
        | [] => replacementChar
      else if 240 ≤ b && b ≤ 244 then
        match rest with
        | c :: r =>
            if validSecond4 b c then
              match r with
              | d :: r2 =>
                  if isCont d then
                    match r2 with
                    | e :: r3 =>
                        if isCont e then b :: c :: d :: e :: lossyDecode r3
                        else replacementChar ++ lossyDecode (e :: r3)
                    | [] => replacementChar
                  else replacementChar ++ lossyDecode (d :: r2)
              | [] => replacementChar
            else replacementChar ++ lossyDecode (c :: r)
        | [] => replacementChar
      else replacementChar ++ lossyDecode rest

/-- latin::file::read_string_utf8 (file.rs lines 112-120): read, then
String::from_utf8; a decode failure is wrapped as an error of kind Other
carrying the FromUtf8Error payload. -/
def read_string_utf8 (fs : Node) (p : FsPath) : Except IoError (List Nat) :=
  match read fs p with
  | Except.ok bytes =>
      if utf8Valid bytes then Except.ok bytes
      else Except.error ⟨ErrorKind.other, true⟩
  | Except.error e => Except.error e

/-- latin::file::read_string_utf8_lossy (file.rs lines 133-138): read, then
String::from_utf8_lossy into an owned string. -/
def read_string_utf8_lossy (fs : Node) (p : FsPath) :
    Except IoError (List Nat) :=
  match read fs p with
  | Except.ok bytes => Except.ok (lossyDecode bytes)
  | Except.error e => Except.error e

/-- The platform line terminator LINE_SEP (file.rs lines 9-13): b"\r\n" when
compiled for Windows, b"\n" otherwise.  The non-Windows target is modelled. -/
def lineSep : List Nat := [10]

/-- The byte stream written by the write_lines loop (file.rs lines 43-46):
each element followed by LINE_SEP, in order. -/
def linesBytes : List (List Nat) → List Nat
  | [] => []
  | l :: rest => l ++ lineSep ++ linesBytes rest

/-- latin::file::write_lines (file.rs lines 41-48): opens with
write(true).create(true).truncate(true), then writes every line followed by
LINE_SEP. -/
def write_lines (fs : Node) (p : FsPath) (ls : List (List Nat)) :
    Except IoError Node :=
  Node.openWrite fs p (fun _ => linesBytes ls)

/-- Drops one trailing carriage return, as BufRead::lines does after
removing the newline. -/
def stripCR (l : List Nat) : List Nat :=
  if l.getLast? = some 13 then l.dropLast else l

/-- Accumulator-based splitter behind splitLines; acc holds the current
line read so far, in reverse. -/
def splitLinesAux : List Nat → List Nat → List (List Nat)
  | acc, [] => if acc.isEmpty then [] else [acc.reverse]
  | acc, b :: rest =>
      if b = 10 then stripCR acc.reverse :: splitLinesAux [] rest
      else splitLinesAux (b :: acc) rest

/-- Models the BufRead::lines chunking: splits at newline bytes, strips the
newline and one carriage return directly before it, and yields a final
unterminated chunk (without CR stripping) when the data does not end in a
newline.  An empty input yields no lines. -/
def splitLines (bytes : List Nat) : List (List Nat) :=
  splitLinesAux [] bytes

/-- One element of the lines iterator: the chunk as a String when its bytes
are valid UTF-8, and an error of kind InvalidData otherwise. -/
def lineResult (chunk : List Nat) : Except IoError (List Nat) :=
  if utf8Valid chunk then Except.ok chunk
  else Except.error ⟨ErrorKind.invalidData, false⟩

/-- latin::file::read_lines (file.rs lines 150-154): opens for reading and
returns the BufRead::lines iterator, here materialised as the list of
per-line results. -/
def read_lines (fs : Node) (p : FsPath) :
    Except IoError (List (Except IoError (List Nat))) :=
  match read fs p with
  | Except.ok bytes => Except.ok ((splitLines bytes).map lineResult)
  | Except.error e => Except.error e

/-- Models std Path::is_file, which follows symlinks: true when the path
resolves to a regular file, also through a symlink to a file. -/
def is_file (fs : Node) (p : FsPath) : Bool :=
  match Node.lookup fs p with
  | some (Node.file _) => true
  | some (Node.symlink SymTarget.toFile) => true
  | _ => false

/-- Models std Path::is_dir, which follows symlinks: true when the path
resolves to a directory, also through a symlink to a directory. -/
def is_dir (fs : Node) (p : FsPath) : Bool :=
  match Node.lookup fs p with
  | some (Node.dir _) => true
  | some (Node.symlink SymTarget.toDir) => true
  | _ => false

/-- Models std Path::exists, which follows symlinks: true when the path
names anything that resolves; a dangling symlink does not count. -/
def path_exists (fs : Node) (p : FsPath) : Bool :=
  match Node.lookup fs p with
  | none => false
  | some (Node.symlink SymTarget.broken) => false
  | some _ => true

/-- latin::file::exists (file.rs lines 162-165): path.is_file() AND
path.exists(); a Bool function, so it cannot fail. -/
def file_exists (fs : Node) (p : FsPath) : Bool :=
  is_file fs p && path_exists fs p

/-- latin::directory::exists (directory.rs lines 11-14): path.is_dir() AND
path.exists(); a Bool function, so it cannot fail. -/
def directory_exists (fs : Node) (p : FsPath) : Bool :=
  is_dir fs p && path_exists fs p

/-- The spec-side predicate for the file existence check, following the spec
words: true iff the path currently names a regular file on disk (resolving
a symlink to the regular file it points at). -/
def namesRegularFile (fs : Node) (p : FsPath) : Bool :=
  match Node.lookup fs p with
  | some (Node.file _) => true
  | some (Node.symlink SymTarget.toFile) => true
  | _ => false

/-- The file type of a directory entry as reported by DirEntry::file_type,
which does not follow symlinks: a symlink is neither a file nor a dir. -/
inductive FileType where
  | fileT
  | dirT
  | symlinkT
deriving DecidableEq, Repr

/-- Models DirEntry::file_type on an entry node. -/
def Node.fileType : Node → FileType
  | Node.file _ => FileType.fileT
  | Node.dir _ => FileType.dirT
  | Node.symlink _ => FileType.symlinkT

/-- Models std FileType::is_file. -/
def FileType.is_file : FileType → Bool
  | FileType.fileT => true
  | _ => false

/-- Models std FileType::is_dir. -/
def FileType.is_dir : FileType → Bool
  | FileType.dirT => true
  | _ => false

/-- latin::directory::children (directory.rs lines 22-29): read_dir, then
every entry path (directory path joined with the entry name), materialised
eagerly in enumeration order. -/
def children (fs : Node) (p : FsPath) : Except IoError (List FsPath) :=
  match Node.lookup fs p with
  | some (Node.dir es) => Except.ok (es.map (fun e => p ++ [e.1]))
  | some _ => Except.error ⟨ErrorKind.other, false⟩
  | none => Except.error ⟨ErrorKind.notFound, false⟩

/-- latin::directory::files (directory.rs lines 40-51): read_dir, keeping
only entries whose file_type().is_file(); symlinks are skipped because
DirEntry::file_type does not follow them (see the TODO in the source). -/
def files (fs : Node) (p : FsPath) : Except IoError (List FsPath) :=
  match Node.lookup fs p with
  | some (Node.dir es) =>
      Except.ok (((es.filter (fun e => (Node.fileType e.2).is_file))).map
        (fun e => p ++ [e.1]))
  | some _ => Except.error ⟨ErrorKind.other, false⟩
  | none => Except.error ⟨ErrorKind.notFound, false⟩

/-- latin::directory::sub_directories (directory.rs lines 60-71): read_dir,
keeping only entries whose file_type().is_dir(); symlinks are skipped for
the same reason as in files. -/
def sub_directories (fs : Node) (p : FsPath) : Except IoError (List FsPath) :=
  match Node.lookup fs p with
  | some (Node.dir es) =>
      Except.ok (((es.filter (fun e => (Node.fileType e.2).is_dir))).map
        (fun e => p ++ [e.1]))
  | some _ => Except.error ⟨ErrorKind.other, false⟩
  | none => Except.error ⟨ErrorKind.notFound, false⟩

/-- The characters after the last dot of a file name, when it has a dot. -/
def afterLastDot : List Char → Option (List Char)
  | [] => none
  | c :: rest =>
      match afterLastDot rest with
      | some e => some e
      | none => if c = '.' then some rest else none

/-- Models std Path::extension on a final path component: the portion of
the file name after the last dot, defined only when a dot occurs past the
first character; the special components dot and dot-dot have no file name
and hence no extension. -/
def rustExtension (name : String) : Option (List Char) :=
  if name = "." ∨ name = ".." then none
  else
    match name.toList with
    | [] => none
    | c :: rest => if c = '.' then afterLastDot rest else afterLastDot (c :: rest)

/-- latin::file::has_extension (file.rs lines 192-197):
path.extension().and_then(to_str).map(equals ext).unwrap_or(false).  If the
path has no final component or no extension, the result is false. -/
def has_extension (p : FsPath) (ext : String) : Bool :=
  match p.getLast? with
  | none => false
  | some name =>
      match rustExtension name with
      | some e => e = ext.toList
      | none => false

/-! ### Helper lemmas about directory entry lists and path resolution -/

theorem findEntry_append_none {es : List (String × Node)} {name : String}
    (x : Node) (h : findEntry es name = none) :
    findEntry (es ++ [(name, x)]) name = some x := by
  induction es with
  | nil => simp [findEntry]
  | cons e rest ih =>
    obtain ⟨k, v⟩ := e
    by_cases hk : k = name
    · simp [findEntry, hk] at h
    · simp [findEntry, hk] at h ⊢
      exact ih h

theorem findEntry_set {es : List (String × Node)} {name : String} {v : Node}
    (x : Node) (h : findEntry es name = some v) :
    findEntry (setEntry es name x) name = some x := by
  induction es with
  | nil => simp [findEntry] at h
  | cons e rest ih =>
    obtain ⟨k, w⟩ := e
    by_cases hk : k = name
    · simp [findEntry, setEntry, hk]
    · simp [findEntry, setEntry, hk] at h ⊢
      exact ih h

theorem lookup_append (n : Node) (p q : FsPath) :
    Node.lookup n (p ++ q) =
      Option.bind (Node.lookup n p) (fun m => Node.lookup m q) := by
  induction p generalizing n with
  | nil => simp [Node.lookup]
  | cons name rest ih =>
    cases n with
    | file c => simp [Node.lookup]
    | symlink t => simp [Node.lookup]
    | dir es =>
      simp only [List.cons_append, Node.lookup]
      cases findEntry es name with
      | some child => exact ih child
      | none => simp

theorem contentAt_cons {es : List (String × Node)} {name : String}
    {child : Node} (q : FsPath) (hf : findEntry es name = some child) :
    contentAt (Node.dir es) (name :: q) = contentAt child q := by
  simp [contentAt, Node.lookup, hf]

theorem contentAt_cons_none {es : List (String × Node)} {name : String}
    (q : FsPath) (hf : findEntry es name = none) :
    contentAt (Node.dir es) (name :: q) = none := by
  simp [contentAt, Node.lookup, hf]

/-- After a successful openWrite, the written path names a regular file
whose content is the write function applied to the previous content. -/
theorem openWrite_lookup {n n' : Node} {p : FsPath}
    {f : Option (List Nat) → List Nat}
    (h : Node.openWrite n p f = Except.ok n') :
    Node.lookup n' p = some (Node.file (f (contentAt n p))) := by
  induction p generalizing n n' with
  | nil => simp [Node.openWrite] at h
  | cons name rest ih =>
    cases n with
    | file c => simp [Node.openWrite] at h
    | symlink t => simp [Node.openWrite] at h
    | dir es =>
      cases hf : findEntry es name with
      | none =>
        cases rest with
        | nil =>
          simp [Node.openWrite, hf] at h
          rw [← h]
          rw [contentAt_cons_none [] hf]
          simp [Node.lookup, findEntry_append_none (Node.file (f none)) hf]
        | cons r rs =>
          simp [Node.openWrite, hf] at h
      | some child =>
        cases rest with
        | nil =>
          cases child with
          | file old =>
            simp [Node.openWrite, hf] at h
            rw [← h]
            rw [contentAt_cons [] hf]
            simp [Node.lookup, contentAt,
              findEntry_set (Node.file (f (some old))) hf]
          | dir es2 => simp [Node.openWrite, hf] at h
          | symlink t => simp [Node.openWrite, hf] at h
        | cons r rs =>
          simp only [Node.openWrite, hf] at h
          cases hrec : Node.openWrite child (r :: rs) f with
          | error e => rw [hrec] at h; simp at h
          | ok c =>
            rw [hrec] at h
            simp at h
            rw [← h]
            rw [contentAt_cons (r :: rs) hf]
            simp only [Node.lookup, findEntry_set c hf]
            exact ih hrec

/-- A path successfully written once can be opened for writing again. -/
theorem openWrite_ok_again {n n' : Node} {p : FsPath}
    {f : Option (List Nat) → List Nat}
    (h : Node.openWrite n p f = Except.ok n')
    (g : Option (List Nat) → List Nat) :
    ∃ n2, Node.openWrite n' p g = Except.ok n2 := by
  induction p generalizing n n' with
  | nil => simp [Node.openWrite] at h
  | cons name rest ih =>
    cases n with
    | file c => simp [Node.openWrite] at h
    | symlink t => simp [Node.openWrite] at h
    | dir es =>
      cases hf : findEntry es name with
      | none =>
        cases rest with
        | nil =>
          simp [Node.openWrite, hf] at h
          refine ⟨Node.dir (setEntry (es ++ [(name, Node.file (f none))]) name
            (Node.file (g (some (f none))))), ?_⟩
          rw [← h]
          simp [Node.openWrite, findEntry_append_none (Node.file (f none)) hf]
        | cons r rs =>
          simp [Node.openWrite, hf] at h
      | some child =>
        cases rest with
        | nil =>
          cases child with
          | file old =>
            simp [Node.openWrite, hf] at h
            refine ⟨Node.dir (setEntry (setEntry es name
              (Node.file (f (some old)))) name
              (Node.file (g (some (f (some old)))))), ?_⟩
            rw [← h]
            simp [Node.openWrite, findEntry_set (Node.file (f (some old))) hf]
          | dir es2 => simp [Node.openWrite, hf] at h
          | symlink t => simp [Node.openWrite, hf] at h
        | cons r rs =>
          simp only [Node.openWrite, hf] at h
          cases hrec : Node.openWrite child (r :: rs) f with
          | error e => rw [hrec] at h; simp at h
          | ok c =>
            rw [hrec] at h
            simp at h
            obtain ⟨c2, hc2⟩ := ih hrec
            refine ⟨Node.dir (setEntry (setEntry es name c) name c2), ?_⟩
            rw [← h]
            simp [Node.openWrite, findEntry_set c hf, hc2]

/-- Opening for writing under a parent path that resolves to nothing fails;
the error is an IO error (never a decode error) whose kind is ENOENT-style
notFound, or Other when an intermediate component is a non-directory. -/
theorem openWrite_missing_parent {n : Node} {d : FsPath}
    (hd : Node.lookup n d = none) (name : String)
    (f : Option (List Nat) → List Nat) :
    ∃ e : IoError, Node.openWrite n (d ++ [name]) f = Except.error e ∧
      e.utf8Cause = false ∧
      (e.kind = ErrorKind.notFound ∨ e.kind = ErrorKind.other) := by
  induction d generalizing n with
  | nil => simp [Node.lookup] at hd
  | cons c d' ih =>
    cases n with
    | file co =>
      refine ⟨⟨ErrorKind.other, false⟩, ?_, rfl, Or.inr rfl⟩
      rw [List.cons_append]
      simp [Node.openWrite]
    | symlink t =>
      refine ⟨⟨ErrorKind.other, false⟩, ?_, rfl, Or.inr rfl⟩
      rw [List.cons_append]
      simp [Node.openWrite]
    | dir es =>
      cases hf : findEntry es c with
      | none =>
        refine ⟨⟨ErrorKind.notFound, false⟩, ?_, rfl, Or.inl rfl⟩
        rw [List.cons_append]
        cases d' with
        | nil => simp [Node.openWrite, hf]
        | cons r rs => simp [Node.openWrite, hf]
      | some child =>
        cases d' with
        | nil => simp [Node.lookup, hf] at hd
        | cons r rs =>
          simp only [Node.lookup, hf] at hd
          obtain ⟨e, he, hu, hk⟩ := ih hd
          refine ⟨e, ?_, hu, hk⟩
          rw [List.cons_append]
          rw [List.cons_append] at he
          simp [Node.openWrite, hf, he]

/-- Every error the read operation produces is a plain IO error: it never
carries a UTF-8 decode payload. -/
theorem read_error_io {fs : Node} {p : FsPath} {e : IoError}
    (h : read fs p = Except.error e) : e.utf8Cause = false := by
  unfold read at h
  split at h <;> cases h <;> rfl

/-! ### Helper lemmas about line splitting -/

theorem mem_of_getLast?_eq {l : List Nat} {x : Nat}
    (h : l.getLast? = some x) : x ∈ l := by
  induction l with
  | nil => simp [List.getLast?] at h
  | cons b rest ih =>
    cases rest with
    | nil =>
      simp [List.getLast?] at h
      simp [h]
    | cons b2 rest2 =>
      rw [List.getLast?_cons_cons] at h
      exact List.mem_cons_of_mem b (ih h)

theorem stripCR_eq_self {l : List Nat} (h : (13 : Nat) ∉ l) :
    stripCR l = l := by
  unfold stripCR
  cases hl : l.getLast? with
  | none => simp
  | some x =>
    by_cases hx : x = 13
    · exact absurd (mem_of_getLast?_eq hl) (hx ▸ h)
    · simp [hl, hx]

theorem splitLinesAux_chunk (l : List Nat) (acc rest : List Nat)
    (hl : ∀ b ∈ l, b ≠ 10) :
    splitLinesAux acc (l ++ 10 :: rest) =
      stripCR (acc.reverse ++ l) :: splitLinesAux [] rest := by
  induction l generalizing acc with
  | nil => simp [splitLinesAux]
  | cons b l' ih =>
    have hb : b ≠ 10 := hl b (List.mem_cons_self b l')
    rw [List.cons_append]
    show splitLinesAux acc (b :: (l' ++ 10 :: rest)) = _
    rw [splitLinesAux]
    simp only [hb, if_false]
    rw [ih (b :: acc) (fun b2 hb2 => hl b2 (List.mem_cons_of_mem b hb2))]
    simp [List.append_assoc]

theorem splitLines_linesBytes (ls : List (List Nat))
    (h : ∀ l ∈ ls, ∀ b ∈ l, b ≠ 10 ∧ b ≠ 13) :
    splitLines (linesBytes ls) = ls := by
  induction ls with
  | nil => simp [splitLines, linesBytes, splitLinesAux]
  | cons l rest ih =>
    have hsep : linesBytes (l :: rest) = l ++ 10 :: linesBytes rest := by
      simp [linesBytes, lineSep]
    unfold splitLines
    rw [hsep, splitLinesAux_chunk l [] (linesBytes rest)
      (fun b hb => (h l (List.mem_cons_self l rest) b hb).1)]
    have h13 : (13 : Nat) ∉ l := fun hm =>
      (h l (List.mem_cons_self l rest) 13 hm).2 rfl
    rw [List.reverse_nil, List.nil_append, stripCR_eq_self h13]
    have := ih (fun l2 hl2 => h l2 (List.mem_cons_of_mem l hl2))
    unfold splitLines at this
    rw [this]

/-! ### Helper lemma about directories with distinct entry names -/

theorem entry_eq_of_nodup {es : List (String × Node)}
    (hnd : (es.map Prod.fst).Nodup)
    {a b : String × Node} (ha : a ∈ es) (hb : b ∈ es) (hk : a.1 = b.1) :
    a = b := by
  induction es with
  | nil => cases ha
  | cons e rest ih =>
    rw [List.map_cons, List.nodup_cons] at hnd
    rcases List.mem_cons.mp ha with ha1 | ha1 <;>
      rcases List.mem_cons.mp hb with hb1 | hb1
    · rw [ha1, hb1]
    · exfalso
      apply hnd.1
      rw [ha1] at hk
      rw [hk]
      exact List.mem_map_of_mem Prod.fst hb1
    · exfalso
      apply hnd.1
      rw [hb1] at hk
      rw [← hk]
      exact List.mem_map_of_mem Prod.fst ha1
    · exact ih hnd.2 ha1 hb1

theorem map_lineResult_eq (ls : List (List Nat))
    (h : ∀ l ∈ ls, utf8Valid l = true) :
    ls.map lineResult = ls.map Except.ok := by
  induction ls with
  | nil => rfl
  | cons l rest ih =>
    simp only [List.map_cons, lineResult, h l (List.mem_cons_self l rest),
      if_true]
    rw [ih (fun l2 h2 => h l2 (List.mem_cons_of_mem l h2))]

/-! ### The claims -/

/-- Claim C1: for every byte sequence b and every path p at which a file can
be created (that is, where write succeeds), write(p, b) followed by read(p)
succeeds and returns exactly the bytes b. -/
theorem claim_C1_write_read_roundtrip (fs fs' : Node) (p : FsPath)
    (b : List Nat) (h : write fs p b = Except.ok fs') :
    read fs' p = Except.ok b := by
  unfold write at h
  have hl := openWrite_lookup h
  unfold read
  rw [hl]

theorem claim_C1_witness :
    read (Node.dir [("f", Node.file [1, 2])]) ["f"] = Except.ok [1, 2] :=
  claim_C1_write_read_roundtrip (Node.dir [])
    (Node.dir [("f", Node.file [1, 2])]) ["f"] [1, 2] rfl

/-- Claim C2: reading a file whose bytes are not valid UTF-8 through
read_string_utf8 fails with a decode error: the error wraps the
FromUtf8Error payload and its kind (Other) differs from the not-found and
permission kinds; errors produced by the IO layer never carry that
payload, so the decode failure is distinguishable from IO errors. -/
theorem claim_C2_utf8_decode_error (fs : Node) (p : FsPath) (b : List Nat)
    (hr : read fs p = Except.ok b) (hv : utf8Valid b = false) :
    (∃ e : IoError, read_string_utf8 fs p = Except.error e ∧
      e.utf8Cause = true ∧ e.kind ≠ ErrorKind.notFound ∧
      e.kind ≠ ErrorKind.permissionDenied) ∧
    ∀ (fs2 : Node) (p2 : FsPath) (e2 : IoError),
      read fs2 p2 = Except.error e2 → e2.utf8Cause = false := by
  constructor
  · refine ⟨⟨ErrorKind.other, true⟩, ?_, rfl, by simp, by simp⟩
    unfold read_string_utf8
    rw [hr]
    simp [hv]
  · intro fs2 p2 e2 h2
    exact read_error_io h2

theorem claim_C2_witness :
    ∃ e : IoError,
      read_string_utf8 (Node.dir [("f", Node.file [255, 254])]) ["f"] =
        Except.error e ∧ e.utf8Cause = true ∧
      e.kind ≠ ErrorKind.notFound ∧ e.kind ≠ ErrorKind.permissionDenied :=
  (claim_C2_utf8_decode_error (Node.dir [("f", Node.file [255, 254])])
    ["f"] [255, 254] rfl (by decide)).1

/-- Claim C3: writing a sequence of texts that contain no line-terminator
bytes with write_lines and then reading with read_lines yields exactly the
written elements, in order, each with its appended platform terminator
stripped. -/
theorem claim_C3_write_lines_read_lines (fs fs' : Node) (p : FsPath)
    (ls : List (List Nat))
    (hesc : ∀ l ∈ ls, utf8Valid l = true ∧ ∀ b ∈ l, b ≠ 10 ∧ b ≠ 13)
    (h : write_lines fs p ls = Except.ok fs') :
    read_lines fs' p = Except.ok (ls.map Except.ok) := by
  unfold write_lines at h
  have hl := openWrite_lookup h
  have hr : read fs' p = Except.ok (linesBytes ls) := by
    unfold read
    rw [hl]
  have hsl := splitLines_linesBytes ls (fun l hm => (hesc l hm).2)
  have hmap := map_lineResult_eq ls (fun l hm => (hesc l hm).1)
  unfold read_lines
  rw [hr]
  simp only [hsl, hmap]

theorem claim_C3_witness :
    read_lines (Node.dir [("f", Node.file [120, 10, 121, 10])]) ["f"] =
      Except.ok [Except.ok [120], Except.ok [121]] :=
  claim_C3_write_lines_read_lines (Node.dir [])
    (Node.dir [("f", Node.file [120, 10, 121, 10])]) ["f"]
    [[120], [121]] (by decide) rfl

/-- Claim C4: writing to a path whose parent directory does not resolve
fails with an IO error of the not-found class (ENOENT, or Other for a
non-directory intermediate), the error is not a decode error, and no file
exists at the path in the (unchanged) filesystem. -/
theorem claim_C4_write_missing_parent (fs : Node) (d : FsPath)
    (name : String) (b : List Nat) (hd : Node.lookup fs d = none) :
    (∃ e : IoError, write fs (d ++ [name]) b = Except.error e ∧
      e.utf8Cause = false ∧
      (e.kind = ErrorKind.notFound ∨ e.kind = ErrorKind.other)) ∧
    file_exists fs (d ++ [name]) = false := by
  constructor
  · unfold write
    exact openWrite_missing_parent hd name (fun _ => b)
  · have hnone : Node.lookup fs (d ++ [name]) = none := by
      rw [lookup_append, hd]
      rfl
    simp [file_exists, is_file, path_exists, hnone]

theorem claim_C4_witness :
    (∃ e : IoError,
      write (Node.dir []) (["d"] ++ ["f"]) [1] = Except.error e ∧
      e.utf8Cause = false ∧
      (e.kind = ErrorKind.notFound ∨ e.kind = ErrorKind.other)) ∧
    file_exists (Node.dir []) (["d"] ++ ["f"]) = false :=
  claim_C4_write_missing_parent (Node.dir []) ["d"] ("f") [1] rfl

/-- Claim C5: on a path that is initially absent or names an empty file,
append of a then append of b succeeds and a subsequent read returns the
two contents concatenated; moreover append never truncates existing
content (the new content of the file is always old content plus appended
bytes). -/
theorem claim_C5_append_append_read (fs fs1 : Node) (p : FsPath)
    (h0 : contentAt fs p = none ∨ contentAt fs p = some [])
    (h1 : append fs p [97] = Except.ok fs1) :
    (∃ fs2, append fs1 p [98] = Except.ok fs2 ∧
      read fs2 p = Except.ok [97, 98]) ∧
    ∀ (g g' : Node) (q : FsPath) (c old : List Nat),
      contentAt g q = some old → append g q c = Except.ok g' →
      contentAt g' q = some (old ++ c) := by
  constructor
  · unfold append at h1
    have hl1 := openWrite_lookup h1
    have hc1 : contentAt fs1 p = some [97] := by
      unfold contentAt
      rw [hl1]
      rcases h0 with h0 | h0 <;> rw [h0] <;> rfl
    obtain ⟨fs2, h2⟩ :=
      openWrite_ok_again h1 (fun old => old.getD [] ++ [98])
    refine ⟨fs2, ?_, ?_⟩
    · unfold append
      exact h2
    · have hl2 := openWrite_lookup h2
      rw [hc1] at hl2
      unfold read
      rw [hl2]
      rfl
  · intro g g' q c old hc hap
    unfold append at hap
    have hl := openWrite_lookup hap
    unfold contentAt
    rw [hl, hc]
    rfl

theorem claim_C5_witness :
    ∃ fs2, append (Node.dir [("f", Node.file [97])]) ["f"] [98] =
        Except.ok fs2 ∧ read fs2 ["f"] = Except.ok [97, 98] :=
  (claim_C5_append_append_read (Node.dir [("f", Node.file [])])
    (Node.dir [("f", Node.file [97])]) ["f"] (Or.inr rfl) rfl).1

/-- Claim C6: the file existence check is a total boolean function; it is
true exactly when the path currently names a regular file (resolving a
symlink to the file it points at), and it is false both for an absent path
and for a path that names a directory. -/
theorem claim_C6_file_exists (fs : Node) (p : FsPath) :
    (file_exists fs p = true ↔ namesRegularFile fs p = true) ∧
    (Node.lookup fs p = none → file_exists fs p = false) ∧
    (∀ es, Node.lookup fs p = some (Node.dir es) →
      file_exists fs p = false) := by
  cases hl : Node.lookup fs p with
  | none =>
    simp [file_exists, is_file, path_exists, namesRegularFile, hl]
  | some n =>
    cases n with
    | file c =>
      simp [file_exists, is_file, path_exists, namesRegularFile, hl]
    | dir es =>
      simp [file_exists, is_file, path_exists, namesRegularFile, hl]
    | symlink t =>
      cases t <;>
        simp [file_exists, is_file, path_exists, namesRegularFile, hl]

theorem claim_C6_witness :
    file_exists (Node.dir [("d", Node.dir [])]) ["d"] = false ∧
    file_exists (Node.dir []) ["missing"] = false :=
  ⟨(claim_C6_file_exists (Node.dir [("d", Node.dir [])]) ["d"]).2.2 [] rfl,
   (claim_C6_file_exists (Node.dir []) ["missing"]).2.1 rfl⟩

/-- Claim C7: the lossy read never fails with a decode error: whenever the
underlying read succeeds the lossy read succeeds, a file containing the
single byte 0xFF yields the UTF-8 replacement character, and any error the
lossy read produces is a plain IO error. -/
theorem claim_C7_lossy_never_decode_fails (fs : Node) (p : FsPath)
    (b : List Nat) (hr : read fs p = Except.ok b) :
    (∃ s, read_string_utf8_lossy fs p = Except.ok s) ∧
    (b = [255] →
      read_string_utf8_lossy fs p = Except.ok replacementChar) ∧
    ∀ (fs2 : Node) (p2 : FsPath) (e : IoError),
      read_string_utf8_lossy fs2 p2 = Except.error e →
        e.utf8Cause = false := by
  refine ⟨⟨lossyDecode b, ?_⟩, ?_, ?_⟩
  · unfold read_string_utf8_lossy
    rw [hr]
  · intro hb
    unfold read_string_utf8_lossy
    rw [hr, hb]
    rfl
  · intro fs2 p2 e he
    unfold read_string_utf8_lossy at he
    cases hr2 : read fs2 p2 with
    | ok bytes => rw [hr2] at he; cases he
    | error e2 =>
      rw [hr2] at he
      cases he
      exact read_error_io hr2

theorem claim_C7_witness :
    read_string_utf8_lossy (Node.dir [("f", Node.file [255])]) ["f"] =
      Except.ok replacementChar :=
  (claim_C7_lossy_never_decode_fails (Node.dir [("f", Node.file [255])])
    ["f"] [255] rfl).2.1 rfl

/-- Claim C8: has_extension is true exactly when the final component of the
path has an extension equal (case-sensitively, without normalisation) to
the given string, and false when there is no extension; in particular
a.tar.gz has extension gz and a plain name a has none. -/
theorem claim_C8_has_extension :
    (∀ (p : FsPath) (ext : String),
      has_extension p ext = true ↔
        Option.bind p.getLast? rustExtension = some ext.toList) ∧
    has_extension ["a.tar.gz"] (String.mk ['g', 'z']) = true ∧
    has_extension ["a"] (String.mk ['g', 'z']) = false := by
  refine ⟨?_, by decide, by decide⟩
  intro p ext
  unfold has_extension
  cases hgl : p.getLast? with
  | none => simp
  | some name =>
    cases hre : rustExtension name with
    | none => simp [Option.bind, hre]
    | some e => simp [Option.bind, hre]

theorem claim_C8_witness :
    has_extension ["a.tar.gz"] (String.mk ['g', 'z']) = true :=
  claim_C8_has_extension.2.1

/-- Claim C9: on a readable directory, files returns exactly the children
whose file type is a regular file and sub_directories exactly those whose
file type is a directory; symlink entries (whatever they point at) appear
in neither result, because DirEntry file_type does not follow links. -/
theorem claim_C9_files_subdirs (fs : Node) (d : FsPath)
    (es : List (String × Node))
    (h : Node.lookup fs d = some (Node.dir es))
    (hnd : (es.map Prod.fst).Nodup) :
    files fs d = Except.ok
      ((es.filter (fun e => (Node.fileType e.2).is_file)).map
        (fun e => d ++ [e.1])) ∧
    sub_directories fs d = Except.ok
      ((es.filter (fun e => (Node.fileType e.2).is_dir)).map
        (fun e => d ++ [e.1])) ∧
    ∀ (name : String) (t : SymTarget), (name, Node.symlink t) ∈ es →
      (∀ l, files fs d = Except.ok l → d ++ [name] ∉ l) ∧
      (∀ l, sub_directories fs d = Except.ok l → d ++ [name] ∉ l) := by
  have hfiles : files fs d = Except.ok
      ((es.filter (fun e => (Node.fileType e.2).is_file)).map
        (fun e => d ++ [e.1])) := by
    unfold files
    rw [h]
  have hdirs : sub_directories fs d = Except.ok
      ((es.filter (fun e => (Node.fileType e.2).is_dir)).map
        (fun e => d ++ [e.1])) := by
    unfold sub_directories
    rw [h]
  refine ⟨hfiles, hdirs, ?_⟩
  intro name t hm
  constructor
  · intro l hl hmem
    rw [hfiles] at hl
    cases hl
    obtain ⟨e, hef, heq⟩ := List.mem_map.mp hmem
    have hname : e.1 = name := by
      have := List.append_cancel_left heq
      simpa using this
    have hees : e ∈ es := (List.mem_filter.mp hef).1
    have hpred := (List.mem_filter.mp hef).2
    have : e = (name, Node.symlink t) :=
      entry_eq_of_nodup hnd hees hm hname
    rw [this] at hpred
    simp [Node.fileType, FileType.is_file] at hpred
  · intro l hl hmem
    rw [hdirs] at hl
    cases hl
    obtain ⟨e, hef, heq⟩ := List.mem_map.mp hmem
    have hname : e.1 = name := by
      have := List.append_cancel_left heq
      simpa using this
    have hees : e ∈ es := (List.mem_filter.mp hef).1
    have hpred := (List.mem_filter.mp hef).2
    have : e = (name, Node.symlink t) :=
      entry_eq_of_nodup hnd hees hm hname
    rw [this] at hpred
    simp [Node.fileType, FileType.is_dir] at hpred

theorem claim_C9_witness :
    files (Node.dir [("d", Node.dir
        [("a", Node.file [1]), ("b", Node.dir []),
         ("s", Node.symlink SymTarget.toFile)])]) ["d"] =
      Except.ok [["d", "a"]] :=
  (claim_C9_files_subdirs
    (Node.dir [("d", Node.dir
      [("a", Node.file [1]), ("b", Node.dir []),
       ("s", Node.symlink SymTarget.toFile)])]) ["d"]
    [("a", Node.file [1]), ("b", Node.dir []),
     ("s", Node.symlink SymTarget.toFile)] rfl (by decide)).1

/-- Claim C10: at a fixed filesystem state the file existence check and the
directory existence check are never both true at the same path, and both
are false at a path that resolves to nothing. -/
theorem claim_C10_file_dir_exclusive (fs : Node) (p : FsPath) :
    (¬ (file_exists fs p = true ∧ directory_exists fs p = true)) ∧
    (Node.lookup fs p = none →
      file_exists fs p = false ∧ directory_exists fs p = false) := by
  cases hl : Node.lookup fs p with
  | none =>
    simp [file_exists, directory_exists, is_file, is_dir, path_exists, hl]
  | some n =>
    cases n with
    | file c =>
      simp [file_exists, directory_exists, is_file, is_dir, path_exists, hl]
    | dir es =>
      simp [file_exists, directory_exists, is_file, is_dir, path_exists, hl]
    | symlink t =>
      cases t <;>
        simp [file_exists, directory_exists, is_file, is_dir, path_exists,
          hl]

theorem claim_C10_witness :
    file_exists (Node.dir []) ["x"] = false ∧
    directory_exists (Node.dir []) ["x"] = false :=
  (claim_C10_file_dir_exclusive (Node.dir []) ["x"]).2 rfl

end Latin
